import Mathlib

/-!
Verification of the recipe/tag/user REST backend.

The data model and the view-layer query scoping are embedded from
`app/recipe/views.py` and `app/user/serializers.py`.  Database tables are
lists of records; the object-relational mapper's `filter`, `order_by`,
`find`-by-primary-key and `get_or_create` calls are embedded as list
operations.  The framework dispatch (authentication check before the
handler, 404 on an empty queryset lookup) is embedded as explicit
`Option`/`Except` plumbing around the repository's `get_queryset`
definitions.
-/

namespace RecipeApp

/-- A user account record from the spec's data model
(email unique, password stored hashed, display name). -/
structure UserRec where
  id : Nat
  email : String
  passwordHash : String
  name : String
  deriving Repr, DecidableEq

/-- A tag record: `{id, name, owner reference}` (`core.models.Tag`). -/
structure Tag where
  id : Nat
  name : String
  user : Nat
  deriving Repr, DecidableEq

/-- A recipe record (`core.models.Recipe`): owner reference, scalar fields
and a many-to-many tag relation held as a list of tag ids.  The decimal
`price` is embedded as an integer number of cents. -/
structure Recipe where
  id : Nat
  user : Nat
  title : String
  time_minutes : Nat
  price : Int
  description : String
  link : String
  tags : List Nat
  deriving Repr, DecidableEq

/-- The relational store: the recipe and tag tables plus the fresh
primary-key counters the database would supply. -/
structure Store where
  recipes : List Recipe
  tags : List Tag
  nextRecipeId : Nat
  nextTagId : Nat
  deriving Repr, DecidableEq

/-- Descending-id order on recipes, the `order_by(-id)` key of
`RecipeViewSet.get_queryset`. -/
def recipeOrd (a b : Recipe) : Prop := b.id ≤ a.id

instance : DecidableRel recipeOrd := fun a b => Nat.decLe b.id a.id

instance : IsTotal Recipe recipeOrd := ⟨fun a b => Nat.le_total b.id a.id⟩

instance : IsTrans Recipe recipeOrd :=
  ⟨fun _ _ _ h1 h2 => Nat.le_trans h2 h1⟩

/-- Reverse-alphabetical order on tags, the `order_by(-name)` key of
`TagViewSet.get_queryset`. -/
def tagOrd (a b : Tag) : Prop := b.name ≤ a.name

instance : DecidableRel tagOrd := fun a b =>
  inferInstanceAs (Decidable (b.name ≤ a.name))

instance : IsTotal Tag tagOrd := ⟨fun a b => le_total b.name a.name⟩

instance : IsTrans Tag tagOrd := ⟨fun _ _ _ h1 h2 => le_trans h2 h1⟩

namespace RecipeViewSet

/-- `RecipeViewSet.get_queryset`: filter the recipe table to the
authenticated user, ordered by descending id. -/
def get_queryset (s : Store) (uid : Nat) : List Recipe :=
  List.insertionSort recipeOrd (s.recipes.filter (fun r => r.user == uid))

/-- Detail-route object lookup: the framework's `get_object` resolves the
primary key inside `get_queryset`; an id outside the scoped queryset is
not found. -/
def get_object (s : Store) (uid pk : Nat) : Option Recipe :=
  (get_queryset s uid).find? (fun r => r.id == pk)

end RecipeViewSet

namespace TagViewSet

/-- `TagViewSet.get_queryset`: filter the tag table to the authenticated
user, ordered by descending (reverse-alphabetical) name. -/
def get_queryset (s : Store) (uid : Nat) : List Tag :=
  List.insertionSort tagOrd (s.tags.filter (fun t => t.user == uid))

/-- Detail-route object lookup through the owner-scoped queryset. -/
def get_object (s : Store) (uid pk : Nat) : Option Tag :=
  (get_queryset s uid).find? (fun t => t.id == pk)

end TagViewSet

/-- Add a tag id to a recipe's many-to-many tag set: the relational add is
a set insertion, so re-adding an already attached id is a no-op. -/
def attachTag (l : List Nat) (i : Nat) : List Nat :=
  if i ∈ l then l else l ++ [i]

/-- State threaded through tag reconciliation: the tag table, the fresh
primary-key counter and the recipe's current tag set. -/
structure RecState where
  table : List Tag
  nextId : Nat
  recTags : List Nat
  deriving Repr, DecidableEq

/-- Modelled from the spec: `recipe/serializers.py` (the serializer whose
reconciliation loop the spec describes) is not under `src/`.  Spec §4.2:
for each requested tag name in order, look up an existing tag owned by the
same user with that exact name; if found attach it, otherwise create a new
tag owned by the user (`get_or_create`) and attach it. -/
def get_or_create_tags (uid : Nat) (table : List Tag) (nextId : Nat)
    (recTags : List Nat) : List String → RecState
  | [] => ⟨table, nextId, recTags⟩
  | n :: rest =>
    match table.find? (fun t => t.user == uid && t.name == n) with
    | some t => get_or_create_tags uid table nextId (attachTag recTags t.id) rest
    | none =>
        get_or_create_tags uid (table ++ [⟨nextId, n, uid⟩]) (nextId + 1)
          (attachTag recTags nextId) rest

/-- Modelled from the spec: the reconciliation step of recipe create and
update when a `tags` field is supplied (spec §4.2): clear the recipe's tag
set, then get-or-create each requested name and attach it, so that the
final tag set exactly equals the resolved set. -/
def reconcileTags (uid : Nat) (st : RecState) (names : List String) : RecState :=
  get_or_create_tags uid st.table st.nextId [] names

/-- A partial-update payload for a recipe: each field is optional, and an
omitted field is left untouched (`ModelSerializer` partial update). -/
structure RecipePatch where
  title : Option String := none
  time_minutes : Option Nat := none
  price : Option Int := none
  description : Option String := none
  link : Option String := none
  tags : Option (List String) := none
  deriving Repr, DecidableEq

/-- Modelled from the spec: application of the supplied scalar fields of a
partial update (spec §4.3: applies only supplied fields); the tag set is
handled separately by the reconciler. -/
def applyRecipeFields (r : Recipe) (p : RecipePatch) : Recipe :=
  { r with
    title := p.title.getD r.title
    time_minutes := p.time_minutes.getD r.time_minutes
    price := p.price.getD r.price
    description := p.description.getD r.description
    link := p.link.getD r.link }

/-- Errors surfaced to the HTTP layer. -/
inductive ApiError where
  | unauthorized
  | forbidden
  | notFound
  deriving Repr, DecidableEq

/-- Recipe partial update (PATCH on the detail route): resolve the object
through the owner-scoped queryset (missing object means 404), apply the
supplied scalar fields, and run tag reconciliation only when a `tags`
field is supplied.  On error the store is returned unchanged. -/
def recipeUpdate (s : Store) (uid rid : Nat) (p : RecipePatch) :
    Except ApiError Unit × Store :=
  match RecipeViewSet.get_object s uid rid with
  | none => (.error .notFound, s)
  | some r =>
    match p.tags with
    | none =>
        let r' := applyRecipeFields r p
        (.ok (),
          { s with recipes := s.recipes.map (fun x => if x.id == rid then r' else x) })
    | some names =>
        let st := reconcileTags uid ⟨s.tags, s.nextTagId, r.tags⟩ names
        let r' := { applyRecipeFields r p with tags := st.recTags }
        (.ok (),
          { s with
            recipes := s.recipes.map (fun x => if x.id == rid then r' else x)
            tags := st.table
            nextTagId := st.nextId })

/-- Recipe delete (DELETE on the detail route): a miss in the owner-scoped
queryset is 404; a hit removes the record. -/
def recipeDestroy (s : Store) (uid rid : Nat) : Except ApiError Unit × Store :=
  match RecipeViewSet.get_object s uid rid with
  | none => (.error .notFound, s)
  | some r =>
    (.ok (), { s with recipes := s.recipes.filter (fun x => !(x.id == r.id)) })

/-- Tag partial update (PATCH): resolve through the owner-scoped queryset,
then update only the supplied `name` field. -/
def tagUpdate (s : Store) (uid tid : Nat) (newName : Option String) :
    Except ApiError Unit × Store :=
  match TagViewSet.get_object s uid tid with
  | none => (.error .notFound, s)
  | some t =>
    let t' := { t with name := newName.getD t.name }
    (.ok (), { s with tags := s.tags.map (fun x => if x.id == tid then t' else x) })

/-- Tag delete (DELETE): a miss in the owner-scoped queryset is 404. -/
def tagDestroy (s : Store) (uid tid : Nat) : Except ApiError Unit × Store :=
  match TagViewSet.get_object s uid tid with
  | none => (.error .notFound, s)
  | some t =>
    (.ok (), { s with tags := s.tags.filter (fun x => !(x.id == t.id)) })

/-- Scalar fields of a recipe-create payload, with an optional nested
`tags` list of names. -/
structure RecipeInput where
  title : String
  time_minutes : Nat
  price : Int
  description : String
  link : String
  tags : Option (List String) := none
  deriving Repr, DecidableEq

/-- Recipe create (`perform_create` saves with `user=self.request.user`):
the new record is owned by the caller, and the nested tag list, when
supplied, is reconciled for that owner. -/
def recipeCreate (s : Store) (uid : Nat) (inp : RecipeInput) : Store :=
  let st := reconcileTags uid ⟨s.tags, s.nextTagId, []⟩ (inp.tags.getD [])
  let r : Recipe :=
    ⟨s.nextRecipeId, uid, inp.title, inp.time_minutes, inp.price,
      inp.description, inp.link, st.recTags⟩
  { s with
    recipes := s.recipes ++ [r]
    nextRecipeId := s.nextRecipeId + 1
    tags := st.table
    nextTagId := st.nextId }

/-!
HTTP endpoints.  Both view sets declare `authentication_classes =
(TokenAuthentication,)` and `permission_classes = (IsAuthenticated,)`
(`views.py`), so the framework rejects any request without an
authenticated caller with 401 before the handler runs.  The caller is an
`Option Nat`: `none` is an unauthenticated request.
-/

/-- Recipe list endpoint (GET): 401 when unauthenticated, otherwise the
owner-scoped queryset. -/
def recipeListEndpoint (s : Store) (caller : Option Nat) :
    Except ApiError (List Recipe) × Store :=
  match caller with
  | none => (.error .unauthorized, s)
  | some uid => (.ok (RecipeViewSet.get_queryset s uid), s)

/-- Recipe detail endpoint (GET). -/
def recipeDetailEndpoint (s : Store) (caller : Option Nat) (pk : Nat) :
    Except ApiError Recipe × Store :=
  match caller with
  | none => (.error .unauthorized, s)
  | some uid =>
    match RecipeViewSet.get_object s uid pk with
    | none => (.error .notFound, s)
    | some r => (.ok r, s)

/-- Recipe create endpoint (POST). -/
def recipeCreateEndpoint (s : Store) (caller : Option Nat) (inp : RecipeInput) :
    Except ApiError Unit × Store :=
  match caller with
  | none => (.error .unauthorized, s)
  | some uid => (.ok (), recipeCreate s uid inp)

/-- Recipe update endpoint (PATCH). -/
def recipeUpdateEndpoint (s : Store) (caller : Option Nat) (pk : Nat)
    (p : RecipePatch) : Except ApiError Unit × Store :=
  match caller with
  | none => (.error .unauthorized, s)
  | some uid => recipeUpdate s uid pk p

/-- Recipe delete endpoint (DELETE). -/
def recipeDestroyEndpoint (s : Store) (caller : Option Nat) (pk : Nat) :
    Except ApiError Unit × Store :=
  match caller with
  | none => (.error .unauthorized, s)
  | some uid => recipeDestroy s uid pk

/-- Tag list endpoint (GET). -/
def tagListEndpoint (s : Store) (caller : Option Nat) :
    Except ApiError (List Tag) × Store :=
  match caller with
  | none => (.error .unauthorized, s)
  | some uid => (.ok (TagViewSet.get_queryset s uid), s)

/-- Tag update endpoint (PATCH). -/
def tagUpdateEndpoint (s : Store) (caller : Option Nat) (pk : Nat)
    (newName : Option String) : Except ApiError Unit × Store :=
  match caller with
  | none => (.error .unauthorized, s)
  | some uid => tagUpdate s uid pk newName

/-- Tag delete endpoint (DELETE). -/
def tagDestroyEndpoint (s : Store) (caller : Option Nat) (pk : Nat) :
    Except ApiError Unit × Store :=
  match caller with
  | none => (.error .unauthorized, s)
  | some uid => tagDestroy s uid pk

/-!
User serializers, embedded from `app/user/serializers.py`.
-/

/-- Django's `set_password` stores a salted hash, never the plain text;
it is embedded as a concrete injective encoding that is never the
identity, which is all the claims use about it. -/
def set_password (p : String) : String := "pbkdf2_sha256$" ++ p

/-- A profile-update payload (`validated_data`): every field of
`UserSerializer.Meta.fields` may be supplied or omitted. -/
structure UserPatch where
  email : Option String := none
  password : Option String := none
  name : Option String := none
  deriving Repr, DecidableEq

namespace UserSerializer

/-- The `min_length` constraint on `password` from
`UserSerializer.Meta.extra_kwargs`: the validation collaborator rejects a
supplied password shorter than 5 before `update` runs. -/
def password_min_length : Nat := 5

/-- `UserSerializer.update`: pop the password out of the validated data,
apply the remaining supplied fields through the model serializer, then —
only if a password was popped and is non-empty (`if password:`) — store
its hash via `set_password`. -/
def update (inst : UserRec) (vd : UserPatch) : UserRec :=
  let password := vd.password
  let user := { inst with
    email := vd.email.getD inst.email
    name := vd.name.getD inst.name }
  match password with
  | none => user
  | some p => if p = "" then user else { user with passwordHash := set_password p }

/-- The serialized representation of a user: the declared fields minus the
`write_only` ones, so `password` (marked `write_only` in `extra_kwargs`)
never appears in any output. -/
def to_representation (u : UserRec) : List (String × String) :=
  [("email", u.email), ("name", u.name)]

end UserSerializer

/-- Errors raised by `AuthTokenSerializer.validate`. -/
inductive AuthError where
  | validationError
  | notAuthenticated
  deriving Repr, DecidableEq

namespace AuthTokenSerializer

/-- `AuthTokenSerializer.validate`: the credential check `authenticate` is
passed in as the external collaborator it is.  `attrs.get` on a missing
field is `None`, so both fields are `Option`; Python's `not email` is true
on `None` and on the empty string, while the password is compared to
`None` only, so an empty-string password reaches the credential check. -/
def validate (authenticate : String → String → Option Nat)
    (email : Option String) (password : Option String) :
    Except AuthError (String × String × Nat) :=
  if email.getD "" = "" ∨ password = none then
    .error .validationError
  else
    let e := email.getD ""
    let p := password.getD ""
    match authenticate e p with
    | none => .error .notAuthenticated
    | some u => .ok (e, p, u)

end AuthTokenSerializer

/-!
Lemmas about the owner-scoped querysets.
-/

theorem mem_recipe_queryset {s : Store} {uid : Nat} {r : Recipe} :
    r ∈ RecipeViewSet.get_queryset s uid ↔ r ∈ s.recipes ∧ r.user = uid := by
  unfold RecipeViewSet.get_queryset
  rw [(List.perm_insertionSort recipeOrd _).mem_iff]
  simp [List.mem_filter]

theorem mem_tag_queryset {s : Store} {uid : Nat} {t : Tag} :
    t ∈ TagViewSet.get_queryset s uid ↔ t ∈ s.tags ∧ t.user = uid := by
  unfold TagViewSet.get_queryset
  rw [(List.perm_insertionSort tagOrd _).mem_iff]
  simp [List.mem_filter]

theorem recipe_get_object_some {s : Store} {uid pk : Nat} {r : Recipe}
    (h : RecipeViewSet.get_object s uid pk = some r) :
    r ∈ s.recipes ∧ r.user = uid ∧ r.id = pk := by
  have hm := List.mem_of_find?_eq_some h
  have hp := List.find?_some h
  rw [mem_recipe_queryset] at hm
  simp only [beq_iff_eq] at hp
  exact ⟨hm.1, hm.2, hp⟩

theorem tag_get_object_some {s : Store} {uid pk : Nat} {t : Tag}
    (h : TagViewSet.get_object s uid pk = some t) :
    t ∈ s.tags ∧ t.user = uid ∧ t.id = pk := by
  have hm := List.mem_of_find?_eq_some h
  have hp := List.find?_some h
  rw [mem_tag_queryset] at hm
  simp only [beq_iff_eq] at hp
  exact ⟨hm.1, hm.2, hp⟩

theorem recipe_get_object_none {s : Store} {uid pk : Nat}
    (h : ∀ r ∈ s.recipes, r.id = pk → r.user ≠ uid) :
    RecipeViewSet.get_object s uid pk = none := by
  unfold RecipeViewSet.get_object
  rw [List.find?_eq_none]
  intro r hr
  rw [mem_recipe_queryset] at hr
  simp only [beq_iff_eq]
  intro hid
  exact h r hr.1 hid hr.2

theorem tag_get_object_none {s : Store} {uid pk : Nat}
    (h : ∀ t ∈ s.tags, t.id = pk → t.user ≠ uid) :
    TagViewSet.get_object s uid pk = none := by
  unfold TagViewSet.get_object
  rw [List.find?_eq_none]
  intro t ht
  rw [mem_tag_queryset] at ht
  simp only [beq_iff_eq]
  intro hid
  exact h t ht.1 hid ht.2

/-!
Sample data used by the witness theorems.
-/

def sampleRecipe : Recipe :=
  ⟨1, 1, "Test Recipe1", 22, 525, "This is a test recipe", "https://www.example.com", []⟩

def sampleRecipe2 : Recipe :=
  ⟨2, 2, "Test Recipe2", 10, 350, "Another recipe", "https://www.examplerecipe.com", []⟩

def sampleTag : Tag := ⟨1, "Vegan", 1⟩

def sampleTag2 : Tag := ⟨2, "Dinner", 2⟩

def sampleStore : Store := ⟨[sampleRecipe, sampleRecipe2], [sampleTag, sampleTag2], 3, 3⟩

/-!
The claims.
-/

/-- C1: for every authenticated caller, every Recipe and Tag returned by a
list or detail operation is owned by that caller; no record owned by a
different user is visible through the recipe or tag endpoints. -/
theorem owner_scoped_visibility (s : Store) (uid : Nat) :
    (∀ r ∈ RecipeViewSet.get_queryset s uid, r.user = uid) ∧
    (∀ t ∈ TagViewSet.get_queryset s uid, t.user = uid) ∧
    (∀ pk r, RecipeViewSet.get_object s uid pk = some r → r.user = uid) ∧
    (∀ pk t, TagViewSet.get_object s uid pk = some t → t.user = uid) := by
  refine ⟨fun r hr => (mem_recipe_queryset.mp hr).2,
    fun t ht => (mem_tag_queryset.mp ht).2,
    fun pk r h => (recipe_get_object_some h).2.1,
    fun pk t h => (tag_get_object_some h).2.1⟩

theorem owner_scoped_visibility_witness :
    sampleRecipe ∈ RecipeViewSet.get_queryset sampleStore 1 ∧
    sampleRecipe.user = 1 ∧
    sampleTag ∈ TagViewSet.get_queryset sampleStore 1 ∧
    sampleTag.user = 1 ∧
    RecipeViewSet.get_object sampleStore 1 1 = some sampleRecipe ∧
    TagViewSet.get_object sampleStore 1 1 = some sampleTag :=
  ⟨by decide, (owner_scoped_visibility sampleStore 1).1 sampleRecipe (by decide),
    by decide, (owner_scoped_visibility sampleStore 1).2.1 sampleTag (by decide),
    by decide, by decide⟩

/-- C5: the recipe list operation returns exactly the caller's recipes
(as a permutation of the owner-filtered table, hence the same records with
the same multiplicities), sorted in descending order of id. -/
theorem recipe_list_owned_desc_id (s : Store) (uid : Nat) :
    (∀ r, r ∈ RecipeViewSet.get_queryset s uid ↔ r ∈ s.recipes ∧ r.user = uid) ∧
    (RecipeViewSet.get_queryset s uid).Perm
      (s.recipes.filter (fun r => r.user == uid)) ∧
    (RecipeViewSet.get_queryset s uid).Pairwise (fun a b => b.id ≤ a.id) := by
  refine ⟨fun r => mem_recipe_queryset,
    List.perm_insertionSort recipeOrd _,
    List.sorted_insertionSort recipeOrd _⟩

/-- C6: the tag list operation returns exactly the caller's tags (as a
permutation of the owner-filtered table), sorted in reverse-alphabetical
order of name. -/
theorem tag_list_owned_reverse_alpha (s : Store) (uid : Nat) :
    (∀ t, t ∈ TagViewSet.get_queryset s uid ↔ t ∈ s.tags ∧ t.user = uid) ∧
    (TagViewSet.get_queryset s uid).Perm
      (s.tags.filter (fun t => t.user == uid)) ∧
    (TagViewSet.get_queryset s uid).Pairwise (fun a b => b.name ≤ a.name) := by
  refine ⟨fun t => mem_tag_queryset,
    List.perm_insertionSort tagOrd _,
    List.sorted_insertionSort tagOrd _⟩

/-- C8: every recipe or tag endpoint called without an authenticated
caller identity returns 401 unauthorized, discloses no resource data, and
leaves the store unmutated. -/
theorem unauthenticated_requests_rejected (s : Store) (pk : Nat)
    (inp : RecipeInput) (p : RecipePatch) (nm : Option String) :
    recipeListEndpoint s none = (.error .unauthorized, s) ∧
    recipeDetailEndpoint s none pk = (.error .unauthorized, s) ∧
    recipeCreateEndpoint s none inp = (.error .unauthorized, s) ∧
    recipeUpdateEndpoint s none pk p = (.error .unauthorized, s) ∧
    recipeDestroyEndpoint s none pk = (.error .unauthorized, s) ∧
    tagListEndpoint s none = (.error .unauthorized, s) ∧
    tagUpdateEndpoint s none pk nm = (.error .unauthorized, s) ∧
    tagDestroyEndpoint s none pk = (.error .unauthorized, s) :=
  ⟨rfl, rfl, rfl, rfl, rfl, rfl, rfl, rfl⟩

/-- C4: an update or delete aimed at a recipe or tag id owned only by a
different user fails with not-found (never forbidden) and leaves the store
unchanged. -/
theorem cross_owner_mutation_not_found (s : Store) (uid pk : Nat)
    (p : RecipePatch) (nm : Option String) :
    ((∀ r ∈ s.recipes, r.id = pk → r.user ≠ uid) →
      recipeUpdate s uid pk p = (.error .notFound, s) ∧
      recipeDestroy s uid pk = (.error .notFound, s)) ∧
    ((∀ t ∈ s.tags, t.id = pk → t.user ≠ uid) →
      tagUpdate s uid pk nm = (.error .notFound, s) ∧
      tagDestroy s uid pk = (.error .notFound, s)) := by
  constructor
  · intro h
    have hn := recipe_get_object_none h
    exact ⟨by simp [recipeUpdate, hn], by simp [recipeDestroy, hn]⟩
  · intro h
    have hn := tag_get_object_none h
    exact ⟨by simp [tagUpdate, hn], by simp [tagDestroy, hn]⟩

theorem cross_owner_mutation_not_found_witness :
    (∀ r ∈ sampleStore.recipes, r.id = 2 → r.user ≠ 1) ∧
    recipeUpdate sampleStore 1 2 {} = (.error .notFound, sampleStore) ∧
    recipeDestroy sampleStore 1 2 = (.error .notFound, sampleStore) ∧
    (∀ t ∈ sampleStore.tags, t.id = 2 → t.user ≠ 1) ∧
    tagUpdate sampleStore 1 2 none = (.error .notFound, sampleStore) ∧
    tagDestroy sampleStore 1 2 = (.error .notFound, sampleStore) :=
  ⟨by decide,
    ((cross_owner_mutation_not_found sampleStore 1 2 {} none).1 (by decide)).1,
    ((cross_owner_mutation_not_found sampleStore 1 2 {} none).1 (by decide)).2,
    by decide,
    ((cross_owner_mutation_not_found sampleStore 1 2 {} none).2 (by decide)).1,
    ((cross_owner_mutation_not_found sampleStore 1 2 {} none).2 (by decide)).2⟩

/-!
Lemmas about the tag reconciler.
-/

theorem mem_attachTag {l : List Nat} {i j : Nat} :
    i ∈ attachTag l j ↔ i ∈ l ∨ i = j := by
  unfold attachTag
  split
  · rename_i h
    constructor
    · exact Or.inl
    · rintro (hi | rfl)
      · exact hi
      · exact h
  · simp [List.mem_append]

theorem self_mem_attachTag (l : List Nat) (j : Nat) : j ∈ attachTag l j :=
  mem_attachTag.mpr (Or.inr rfl)

theorem mem_attachTag_of_mem {l : List Nat} {i : Nat} (j : Nat) (h : i ∈ l) :
    i ∈ attachTag l j :=
  mem_attachTag.mpr (Or.inl h)

theorem goc_cons_found {uid nid : Nat} {table : List Tag} {acc : List Nat}
    {n : String} {rest : List String} {t : Tag}
    (h : table.find? (fun t => t.user == uid && t.name == n) = some t) :
    get_or_create_tags uid table nid acc (n :: rest) =
      get_or_create_tags uid table nid (attachTag acc t.id) rest := by
  simp only [get_or_create_tags, h]

theorem goc_cons_missing {uid nid : Nat} {table : List Tag} {acc : List Nat}
    {n : String} {rest : List String}
    (h : table.find? (fun t => t.user == uid && t.name == n) = none) :
    get_or_create_tags uid table nid acc (n :: rest) =
      get_or_create_tags uid (table ++ [⟨nid, n, uid⟩]) (nid + 1)
        (attachTag acc nid) rest := by
  simp only [get_or_create_tags, h]

theorem goc_table_extends (uid : Nat) :
    ∀ (names : List String) (table : List Tag) (nid : Nat) (acc : List Nat),
    ∃ Δ, (get_or_create_tags uid table nid acc names).table = table ++ Δ := by
  intro names
  induction names with
  | nil => intro table nid acc; exact ⟨[], by simp [get_or_create_tags]⟩
  | cons n rest ih =>
    intro table nid acc
    unfold get_or_create_tags
    cases h : table.find? (fun t => t.user == uid && t.name == n) with
    | some t => simpa using ih table nid (attachTag acc t.id)
    | none =>
      obtain ⟨Δ, hΔ⟩ := ih (table ++ [⟨nid, n, uid⟩]) (nid + 1) (attachTag acc nid)
      exact ⟨⟨nid, n, uid⟩ :: Δ, by simpa [List.append_assoc] using hΔ⟩

theorem goc_recTags_mono (uid : Nat) :
    ∀ (names : List String) (table : List Tag) (nid : Nat) (acc : List Nat)
    (i : Nat), i ∈ acc → i ∈ (get_or_create_tags uid table nid acc names).recTags := by
  intro names
  induction names with
  | nil => intro table nid acc i hi; simpa [get_or_create_tags] using hi
  | cons n rest ih =>
    intro table nid acc i hi
    unfold get_or_create_tags
    cases h : table.find? (fun t => t.user == uid && t.name == n) with
    | some t => exact ih table nid (attachTag acc t.id) i (mem_attachTag_of_mem _ hi)
    | none =>
      exact ih (table ++ [⟨nid, n, uid⟩]) (nid + 1) (attachTag acc nid) i
        (mem_attachTag_of_mem _ hi)

theorem find?_matches_owner_name {uid : Nat} {n : String} {table : List Tag}
    {t : Tag} (h : table.find? (fun t => t.user == uid && t.name == n) = some t) :
    t ∈ table ∧ t.user = uid ∧ t.name = n := by
  have hm := List.mem_of_find?_eq_some h
  have hp := List.find?_some h
  simp only [Bool.and_eq_true, beq_iff_eq] at hp
  exact ⟨hm, hp.1, hp.2⟩

theorem goc_recTags_sound (uid : Nat) :
    ∀ (names : List String) (table : List Tag) (nid : Nat) (acc : List Nat)
    (i : Nat), i ∈ (get_or_create_tags uid table nid acc names).recTags →
    i ∈ acc ∨ ∃ t, t ∈ (get_or_create_tags uid table nid acc names).table ∧
      t.id = i ∧ t.user = uid ∧ t.name ∈ names := by
  intro names
  induction names with
  | nil => intro table nid acc i hi; exact Or.inl (by simpa [get_or_create_tags] using hi)
  | cons n rest ih =>
    intro table nid acc i hi
    cases h : table.find? (fun t => t.user == uid && t.name == n) with
    | some t =>
      rw [goc_cons_found h] at hi ⊢
      rcases ih table nid (attachTag acc t.id) i hi with hacc | ⟨t', ht', hid, hu, hn⟩
      · rcases mem_attachTag.mp hacc with hacc' | hit
        · exact Or.inl hacc'
        · obtain ⟨ht, hu, hn⟩ := find?_matches_owner_name h
          obtain ⟨Δ, hΔ⟩ := goc_table_extends uid rest table nid (attachTag acc t.id)
          refine Or.inr ⟨t, ?_, hit.symm, hu, by simp [hn]⟩
          rw [hΔ]
          exact List.mem_append_left _ ht
      · exact Or.inr ⟨t', ht', hid, hu, List.mem_cons_of_mem _ hn⟩
    | none =>
      rw [goc_cons_missing h] at hi ⊢
      rcases ih (table ++ [⟨nid, n, uid⟩]) (nid + 1) (attachTag acc nid) i hi with
        hacc | ⟨t', ht', hid, hu, hn⟩
      · rcases mem_attachTag.mp hacc with hacc' | hit
        · exact Or.inl hacc'
        · obtain ⟨Δ, hΔ⟩ :=
            goc_table_extends uid rest (table ++ [⟨nid, n, uid⟩]) (nid + 1)
              (attachTag acc nid)
          refine Or.inr ⟨⟨nid, n, uid⟩, ?_, hit.symm, rfl, by simp⟩
          rw [hΔ]
          exact List.mem_append_left _ (List.mem_append_right _ (List.mem_singleton.mpr rfl))
      · exact Or.inr ⟨t', ht', hid, hu, List.mem_cons_of_mem _ hn⟩

theorem goc_names_covered (uid : Nat) :
    ∀ (names : List String) (table : List Tag) (nid : Nat) (acc : List Nat)
    (n : String), n ∈ names →
    ∃ t, t ∈ (get_or_create_tags uid table nid acc names).table ∧
      t.user = uid ∧ t.name = n ∧
      t.id ∈ (get_or_create_tags uid table nid acc names).recTags := by
  intro names
  induction names with
  | nil => intro table nid acc n hn; exact absurd hn (List.not_mem_nil n)
  | cons m rest ih =>
    intro table nid acc n hn
    cases h : table.find? (fun t => t.user == uid && t.name == m) with
    | some t =>
      rw [goc_cons_found h]
      rcases List.mem_cons.mp hn with heq | hn'
      · obtain ⟨ht, hu, hname⟩ := find?_matches_owner_name h
        obtain ⟨Δ, hΔ⟩ := goc_table_extends uid rest table nid (attachTag acc t.id)
        refine ⟨t, ?_, hu, by rw [hname, heq], ?_⟩
        · rw [hΔ]; exact List.mem_append_left _ ht
        · exact goc_recTags_mono uid rest table nid (attachTag acc t.id) t.id
            (self_mem_attachTag acc t.id)
      · exact ih table nid (attachTag acc t.id) n hn'
    | none =>
      rw [goc_cons_missing h]
      rcases List.mem_cons.mp hn with heq | hn'
      · obtain ⟨Δ, hΔ⟩ :=
          goc_table_extends uid rest (table ++ [⟨nid, m, uid⟩]) (nid + 1)
            (attachTag acc nid)
        refine ⟨⟨nid, m, uid⟩, ?_, rfl, heq.symm, ?_⟩
        · rw [hΔ]
          exact List.mem_append_left _ (List.mem_append_right _ (List.mem_singleton.mpr rfl))
        · exact goc_recTags_mono uid rest (table ++ [⟨nid, m, uid⟩]) (nid + 1)
            (attachTag acc nid) nid (self_mem_attachTag acc nid)
      · exact ih (table ++ [⟨nid, m, uid⟩]) (nid + 1) (attachTag acc nid) n hn'

theorem find?_append_some {α : Type} {p : α → Bool} {l₁ l₂ : List α} {a : α}
    (h : l₁.find? p = some a) : (l₁ ++ l₂).find? p = some a := by
  rw [List.find?_append, h]
  rfl

theorem goc_idem (uid : Nat) :
    ∀ (names : List String) (table : List Tag) (nid : Nat) (acc : List Nat),
    get_or_create_tags uid (get_or_create_tags uid table nid acc names).table
      (get_or_create_tags uid table nid acc names).nextId acc names
    = get_or_create_tags uid table nid acc names := by
  intro names
  induction names with
  | nil => intro table nid acc; rfl
  | cons n rest ih =>
    intro table nid acc
    cases h : table.find? (fun t => t.user == uid && t.name == n) with
    | some t =>
      rw [goc_cons_found h]
      obtain ⟨Δ, hΔ⟩ := goc_table_extends uid rest table nid (attachTag acc t.id)
      have hfind :
          (get_or_create_tags uid table nid (attachTag acc t.id) rest).table.find?
            (fun t => t.user == uid && t.name == n) = some t := by
        rw [hΔ]
        exact find?_append_some h
      rw [goc_cons_found hfind]
      exact ih table nid (attachTag acc t.id)
    | none =>
      rw [goc_cons_missing h]
      obtain ⟨Δ, hΔ⟩ :=
        goc_table_extends uid rest (table ++ [⟨nid, n, uid⟩]) (nid + 1)
          (attachTag acc nid)
      have hfind :
          (get_or_create_tags uid (table ++ [⟨nid, n, uid⟩]) (nid + 1)
              (attachTag acc nid) rest).table.find?
            (fun t => t.user == uid && t.name == n) = some ⟨nid, n, uid⟩ := by
        rw [hΔ, List.append_assoc, List.find?_append, h, List.singleton_append,
          List.find?_cons_of_pos]
        · rfl
        · simp
      rw [goc_cons_found hfind]
      exact ih (table ++ [⟨nid, n, uid⟩]) (nid + 1) (attachTag acc nid)

/-- C2: after the tag-reconciliation step of an update supplying a `tags`
field, the recipe's tag set equals exactly the set resolved from the
requested names — every attached id is a tag of the caller whose name was
requested, every requested name has a resolved tag attached — and the
reconciler only ever appends to the tag table; in particular an empty
requested list clears all associations while leaving the tag records in
the store. -/
theorem reconcile_tag_set_matches_request (s : Store) (uid rid : Nat)
    (p : RecipePatch) (names : List String) (r : Recipe)
    (hobj : RecipeViewSet.get_object s uid rid = some r)
    (htags : p.tags = some names) :
    (recipeUpdate s uid rid p).1 = .ok () ∧
    { applyRecipeFields r p with
        tags := (reconcileTags uid ⟨s.tags, s.nextTagId, r.tags⟩ names).recTags } ∈
      (recipeUpdate s uid rid p).2.recipes ∧
    (recipeUpdate s uid rid p).2.tags =
      (reconcileTags uid ⟨s.tags, s.nextTagId, r.tags⟩ names).table ∧
    (∀ i ∈ (reconcileTags uid ⟨s.tags, s.nextTagId, r.tags⟩ names).recTags,
      ∃ t, t ∈ (recipeUpdate s uid rid p).2.tags ∧ t.id = i ∧ t.user = uid ∧
        t.name ∈ names) ∧
    (∀ n ∈ names,
      ∃ t, t ∈ (recipeUpdate s uid rid p).2.tags ∧ t.user = uid ∧ t.name = n ∧
        t.id ∈ (reconcileTags uid ⟨s.tags, s.nextTagId, r.tags⟩ names).recTags) ∧
    (∃ Δ, (recipeUpdate s uid rid p).2.tags = s.tags ++ Δ) ∧
    (names = [] →
      (reconcileTags uid ⟨s.tags, s.nextTagId, r.tags⟩ names).recTags = [] ∧
      (recipeUpdate s uid rid p).2.tags = s.tags) := by
  obtain ⟨hmem, huser, hid⟩ := recipe_get_object_some hobj
  have h1 : (recipeUpdate s uid rid p).1 = .ok () := by
    simp [recipeUpdate, hobj, htags]
  have hrec : (recipeUpdate s uid rid p).2.recipes =
      s.recipes.map (fun x => if x.id == rid then
        { applyRecipeFields r p with
            tags := (reconcileTags uid ⟨s.tags, s.nextTagId, r.tags⟩ names).recTags }
        else x) := by
    simp [recipeUpdate, hobj, htags]
  have htbl : (recipeUpdate s uid rid p).2.tags =
      (reconcileTags uid ⟨s.tags, s.nextTagId, r.tags⟩ names).table := by
    simp [recipeUpdate, hobj, htags]
  refine ⟨h1, ?_, htbl, ?_, ?_, ?_, ?_⟩
  · rw [hrec]
    exact List.mem_map.mpr ⟨r, hmem, by simp [hid]⟩
  · intro i hi
    rcases goc_recTags_sound uid names s.tags s.nextTagId [] i hi with habs | ⟨t, ht, hti, htu, htn⟩
    · exact absurd habs (List.not_mem_nil i)
    · exact ⟨t, by rwa [htbl], hti, htu, htn⟩
  · intro n hn
    obtain ⟨t, ht, htu, htn, hta⟩ := goc_names_covered uid names s.tags s.nextTagId [] n hn
    exact ⟨t, by rwa [htbl], htu, htn, hta⟩
  · obtain ⟨Δ, hΔ⟩ := goc_table_extends uid names s.tags s.nextTagId []
    exact ⟨Δ, by rwa [htbl]⟩
  · intro hnil
    subst hnil
    exact ⟨rfl, by rw [htbl]; rfl⟩

theorem reconcile_tag_set_matches_request_witness :
    (recipeUpdate sampleStore 1 1 { tags := some ["Vegan", "Healthy"] }).1 = .ok () ∧
    (recipeUpdate sampleStore 1 1 { tags := some ["Vegan", "Healthy"] }).2.tags =
      (reconcileTags 1 ⟨sampleStore.tags, sampleStore.nextTagId, sampleRecipe.tags⟩
        ["Vegan", "Healthy"]).table ∧
    (reconcileTags 1 ⟨sampleStore.tags, sampleStore.nextTagId, sampleRecipe.tags⟩
      ([] : List String)).recTags = [] ∧
    (recipeUpdate sampleStore 1 1 { tags := some [] }).2.tags = sampleStore.tags :=
  ⟨(reconcile_tag_set_matches_request sampleStore 1 1
      { tags := some ["Vegan", "Healthy"] } ["Vegan", "Healthy"] sampleRecipe
      (by decide) rfl).1,
   (reconcile_tag_set_matches_request sampleStore 1 1
      { tags := some ["Vegan", "Healthy"] } ["Vegan", "Healthy"] sampleRecipe
      (by decide) rfl).2.2.1,
   ((reconcile_tag_set_matches_request sampleStore 1 1 { tags := some [] } []
      sampleRecipe (by decide) rfl).2.2.2.2.2.2 rfl).1,
   ((reconcile_tag_set_matches_request sampleStore 1 1 { tags := some [] } []
      sampleRecipe (by decide) rfl).2.2.2.2.2.2 rfl).2⟩

/-- C3: tag reconciliation is idempotent — repeating the same request over
the state produced by a first application changes nothing (same tag set,
same tag table, so no duplicate tag records) — and a requested name that
exactly matches an existing tag of the same owner attaches that existing
tag without touching the table or the fresh-id counter. -/
theorem reconcile_idempotent (uid : Nat) (st : RecState) (names : List String) :
    reconcileTags uid (reconcileTags uid st names) names =
      reconcileTags uid st names ∧
    (∀ (table : List Tag) (nid : Nat) (acc : List Nat) (n : String) (t : Tag),
      table.find? (fun t => t.user == uid && t.name == n) = some t →
      get_or_create_tags uid table nid acc [n] = ⟨table, nid, attachTag acc t.id⟩) := by
  constructor
  · exact goc_idem uid names st.table st.nextId []
  · intro table nid acc n t h
    rw [goc_cons_found h]
    rfl

theorem reconcile_idempotent_witness :
    reconcileTags 1
        (reconcileTags 1 ⟨[sampleTag], 3, []⟩ ["Vegan", "Healthy"])
        ["Vegan", "Healthy"] =
      reconcileTags 1 ⟨[sampleTag], 3, []⟩ ["Vegan", "Healthy"] ∧
    get_or_create_tags 1 [sampleTag] 3 [] ["Vegan"] =
      ⟨[sampleTag], 3, attachTag [] sampleTag.id⟩ :=
  ⟨(reconcile_idempotent 1 ⟨[sampleTag], 3, []⟩ ["Vegan", "Healthy"]).1,
   (reconcile_idempotent 1 ⟨[sampleTag], 3, []⟩ ["Vegan", "Healthy"]).2
     [sampleTag] 3 [] "Vegan" sampleTag (by decide)⟩

/-- C7: a partial update by the owner succeeds and modifies only the
supplied fields — every omitted scalar field keeps its previous value, the
tag set and tag table are untouched when no `tags` field is supplied, and
unrelated recipes are untouched. -/
theorem partial_update_frame (s : Store) (uid rid : Nat) (p : RecipePatch)
    (r : Recipe) (hobj : RecipeViewSet.get_object s uid rid = some r) :
    (recipeUpdate s uid rid p).1 = .ok () ∧
    (∃ r', r' ∈ (recipeUpdate s uid rid p).2.recipes ∧ r'.id = r.id ∧
      (p.title = none → r'.title = r.title) ∧
      (p.time_minutes = none → r'.time_minutes = r.time_minutes) ∧
      (p.price = none → r'.price = r.price) ∧
      (p.description = none → r'.description = r.description) ∧
      (p.link = none → r'.link = r.link) ∧
      (p.tags = none → r'.tags = r.tags)) ∧
    (p.tags = none → (recipeUpdate s uid rid p).2.tags = s.tags ∧
      (recipeUpdate s uid rid p).2.nextTagId = s.nextTagId) ∧
    (∀ x ∈ s.recipes, x.id ≠ rid → x ∈ (recipeUpdate s uid rid p).2.recipes) := by
  obtain ⟨hmem, huser, hid⟩ := recipe_get_object_some hobj
  cases htags : p.tags with
  | none =>
    have h1 : (recipeUpdate s uid rid p).1 = .ok () := by
      simp [recipeUpdate, hobj, htags]
    have hrec : (recipeUpdate s uid rid p).2.recipes =
        s.recipes.map (fun x => if x.id == rid then applyRecipeFields r p else x) := by
      simp [recipeUpdate, hobj, htags]
    refine ⟨h1, ⟨applyRecipeFields r p, ?_, rfl, ?_, ?_, ?_, ?_, ?_, fun _ => rfl⟩,
      fun _ => ⟨by simp [recipeUpdate, hobj, htags], by simp [recipeUpdate, hobj, htags]⟩,
      ?_⟩
    · rw [hrec]
      exact List.mem_map.mpr ⟨r, hmem, by simp [hid]⟩
    · intro h; simp [applyRecipeFields, h]
    · intro h; simp [applyRecipeFields, h]
    · intro h; simp [applyRecipeFields, h]
    · intro h; simp [applyRecipeFields, h]
    · intro h; simp [applyRecipeFields, h]
    · intro x hx hxid
      rw [hrec]
      refine List.mem_map.mpr ⟨x, hx, ?_⟩
      simp [hxid]
  | some names =>
    have h1 : (recipeUpdate s uid rid p).1 = .ok () := by
      simp [recipeUpdate, hobj, htags]
    have hrec : (recipeUpdate s uid rid p).2.recipes =
        s.recipes.map (fun x => if x.id == rid then
          { applyRecipeFields r p with
              tags := (reconcileTags uid ⟨s.tags, s.nextTagId, r.tags⟩ names).recTags }
          else x) := by
      simp [recipeUpdate, hobj, htags]
    refine ⟨h1,
      ⟨{ applyRecipeFields r p with
          tags := (reconcileTags uid ⟨s.tags, s.nextTagId, r.tags⟩ names).recTags },
        ?_, rfl, ?_, ?_, ?_, ?_, ?_, ?_⟩,
      fun hc => by simp [htags] at hc,
      ?_⟩
    · rw [hrec]
      exact List.mem_map.mpr ⟨r, hmem, by simp [hid]⟩
    · intro h; simp [applyRecipeFields, h]
    · intro h; simp [applyRecipeFields, h]
    · intro h; simp [applyRecipeFields, h]
    · intro h; simp [applyRecipeFields, h]
    · intro h; simp [applyRecipeFields, h]
    · intro hc; simp [htags] at hc
    · intro x hx hxid
      rw [hrec]
      refine List.mem_map.mpr ⟨x, hx, ?_⟩
      simp [hxid]

theorem partial_update_frame_witness :
    (recipeUpdate sampleStore 1 1 { title := some "new title" }).1 = .ok () ∧
    (recipeUpdate sampleStore 1 1 { title := some "new title" }).2.tags =
      sampleStore.tags :=
  ⟨(partial_update_frame sampleStore 1 1 { title := some "new title" }
      sampleRecipe (by decide)).1,
   ((partial_update_frame sampleStore 1 1 { title := some "new title" }
      sampleRecipe (by decide)).2.2.1 rfl).1⟩

def sampleUser : UserRec :=
  ⟨1, "user@example.com", "pbkdf2_sha256$testpass123", "Test User"⟩

/-- C9: a profile update rehashes and stores the password only when one is
supplied (validated, hence at least `min_length` long), never storing it
plain; omitting the password leaves the stored hash unchanged while the
other supplied fields are applied; and the serialized representation of a
user never contains the password field. -/
theorem user_update_password_frame (inst : UserRec) (vd : UserPatch) :
    (vd.password = none →
      (UserSerializer.update inst vd).passwordHash = inst.passwordHash ∧
      (UserSerializer.update inst vd).email = vd.email.getD inst.email ∧
      (UserSerializer.update inst vd).name = vd.name.getD inst.name) ∧
    (∀ pw, vd.password = some pw → UserSerializer.password_min_length ≤ pw.length →
      (UserSerializer.update inst vd).passwordHash = set_password pw ∧
      set_password pw ≠ pw ∧
      (UserSerializer.update inst vd).email = vd.email.getD inst.email ∧
      (UserSerializer.update inst vd).name = vd.name.getD inst.name) ∧
    (∀ u pair, pair ∈ UserSerializer.to_representation u → pair.1 ≠ "password") := by
  refine ⟨?_, ?_, ?_⟩
  · intro h
    simp [UserSerializer.update, h]
  · intro pw hpw hlen
    have hne : pw ≠ "" := by
      intro he
      rw [he] at hlen
      simp [UserSerializer.password_min_length] at hlen
    have hnp : set_password pw ≠ pw := by
      intro hcontra
      have hl := congrArg String.length hcontra
      have h14 : ("pbkdf2_sha256$" : String).length = 14 := rfl
      simp only [set_password, String.length_append, h14] at hl
      omega
    refine ⟨by simp [UserSerializer.update, hpw, hne], hnp,
      by simp [UserSerializer.update, hpw, hne],
      by simp [UserSerializer.update, hpw, hne]⟩
  · intro u pair hp
    simp only [UserSerializer.to_representation, List.mem_cons,
      List.not_mem_nil, or_false] at hp
    rcases hp with rfl | rfl
    · exact (by decide : ("email" : String) ≠ "password")
    · exact (by decide : ("name" : String) ≠ "password")

theorem user_update_password_frame_witness :
    (UserSerializer.update sampleUser { name := some "New Name" }).passwordHash =
      sampleUser.passwordHash ∧
    (UserSerializer.update sampleUser { password := some "newpass123" }).passwordHash =
      set_password "newpass123" ∧
    set_password "newpass123" ≠ "newpass123" ∧
    ("email", sampleUser.email) ∈ UserSerializer.to_representation sampleUser ∧
    ("email", sampleUser.email).1 ≠ "password" :=
  ⟨((user_update_password_frame sampleUser { name := some "New Name" }).1 rfl).1,
   ((user_update_password_frame sampleUser { password := some "newpass123" }).2.1
      "newpass123" rfl (by decide)).1,
   ((user_update_password_frame sampleUser { password := some "newpass123" }).2.1
      "newpass123" rfl (by decide)).2.1,
   by decide,
   (user_update_password_frame sampleUser {}).2.2 sampleUser
     ("email", sampleUser.email) (by decide)⟩

/-- C10: token validation raises a validation error when the email is
missing or empty or the password field is absent, raises not-authenticated
when the credential check yields no user, and otherwise returns the
attributes with the authenticated user attached; an empty-string password
is not treated as absent and is passed to the credential check. -/
theorem auth_token_validate_cases (auth : String → String → Option Nat)
    (email password : Option String) :
    ((email = none ∨ email = some "" ∨ password = none) →
      AuthTokenSerializer.validate auth email password = .error .validationError) ∧
    (∀ e pw, email = some e → e ≠ "" → password = some pw →
      (auth e pw = none →
        AuthTokenSerializer.validate auth email password = .error .notAuthenticated) ∧
      (∀ u, auth e pw = some u →
        AuthTokenSerializer.validate auth email password = .ok (e, pw, u))) ∧
    (∀ e, e ≠ "" →
      AuthTokenSerializer.validate auth (some e) (some "") =
        match auth e "" with
        | none => .error .notAuthenticated
        | some u => .ok (e, "", u)) := by
  refine ⟨?_, ?_, ?_⟩
  · rintro (rfl | rfl | rfl) <;> simp [AuthTokenSerializer.validate]
  · rintro e pw rfl hne rfl
    constructor
    · intro hnone
      simp [AuthTokenSerializer.validate, hne, hnone]
    · intro u hu
      simp [AuthTokenSerializer.validate, hne, hu]
  · intro e hne
    cases h : auth e "" <;> simp [AuthTokenSerializer.validate, hne, h]

def sampleAuth : String → String → Option Nat :=
  fun e pw => if e = "a@b.c" ∧ pw = "goodpass" then some 7 else none

theorem auth_token_validate_cases_witness :
    AuthTokenSerializer.validate sampleAuth none (some "x") =
      .error .validationError ∧
    AuthTokenSerializer.validate sampleAuth (some "a@b.c") (some "bad") =
      .error .notAuthenticated ∧
    AuthTokenSerializer.validate sampleAuth (some "a@b.c") (some "goodpass") =
      .ok ("a@b.c", "goodpass", 7) ∧
    AuthTokenSerializer.validate sampleAuth (some "a@b.c") (some "") =
      .error .notAuthenticated :=
  ⟨(auth_token_validate_cases sampleAuth none (some "x")).1 (Or.inl rfl),
   ((auth_token_validate_cases sampleAuth (some "a@b.c") (some "bad")).2.1
      "a@b.c" "bad" rfl (by decide) rfl).1 (by decide),
   ((auth_token_validate_cases sampleAuth (some "a@b.c") (some "goodpass")).2.1
      "a@b.c" "goodpass" rfl (by decide) rfl).2 7 (by decide),
   ((auth_token_validate_cases sampleAuth (some "a@b.c") (some "")).2.1
      "a@b.c" "" rfl (by decide) rfl).1 (by decide)⟩

end RecipeApp
